import Mathlib

/-!
Verification of the metal-oxide self-assembly simulation (`src/metal_oxide.py`).

The core of the program is two classes:

* `Particle` — owns position `(x, y)`, `velocity` (a pair), an assembly
  `state` (`"unassembled"` / `"assembled"`) and an optional
  `transformation_time`.  Its `update(t, k0, f_x)` method draws one uniform
  random number, possibly transforms the particle, and otherwise moves it and
  reflects it off the hard-coded box `[0, 10] × [0, 1]`.
* `SelfAssemblyModel` — owns the global parameters, the particle list and the
  step counter, the Gaussian `correction_factor`, and `step()` which advances
  time and updates every particle in order.

The embedding below models Python floats as real numbers, the global
`random` stream as an explicit stream of reals consumed left to right, and
Python's `ZeroDivisionError` (raised by `correction_factor` when
`sigma == 0`) as an `Except` error value.
-/

namespace MetalOxide

/-- The particle assembly state: `"unassembled"` or `"assembled"` in the
Python source. -/
inductive PState where
  | unassembled : PState
  | assembled : PState
deriving DecidableEq, Repr

/-- `Particle.__init__(x, y, velocity)`: position, velocity tuple, state
initialized to `"unassembled"`, `transformation_time` to `None`. -/
structure Particle where
  x : ℝ
  y : ℝ
  velocity : ℝ × ℝ
  state : PState
  transformation_time : Option ℕ

/-- The freshly constructed particle of `Particle.__init__`. -/
def Particle.mkInit (x y : ℝ) (velocity : ℝ × ℝ) : Particle :=
  { x := x, y := y, velocity := velocity
    state := PState.unassembled, transformation_time := none }

/-- The transformation probability computed in `Particle.update`:
`P = 1 - math.exp(-k0 * f_x * t**2)`. -/
noncomputable def transformP (k0 f_x : ℝ) (t : ℕ) : ℝ :=
  1 - Real.exp (-k0 * f_x * (t : ℝ) ^ 2)

/-- The motion-and-reflection part of `Particle.update` (lines 25-36 of the
source): add the velocity to the position componentwise, then clamp `x` into
`[0, 10]` (negating `velocity[0]`) if it left that interval, then clamp `y`
into `[0, 1]` (negating `velocity[1]`) if it left that interval.  Note the
clamp bounds are the hard-coded constants `10` and `1`, not the model's
`length` and `width`. -/
noncomputable def Particle.move (p : Particle) : Particle :=
  let p1 : Particle := { p with x := p.x + p.velocity.1, y := p.y + p.velocity.2 }
  let p2 : Particle :=
    if p1.x < 0 ∨ p1.x > 10 then
      { p1 with velocity := (-p1.velocity.1, p1.velocity.2)
                x := max 0 (min p1.x 10) }
    else p1
  if p2.y < 0 ∨ p2.y > 1 then
    { p2 with velocity := (p2.velocity.1, -p2.velocity.2)
              y := max 0 (min p2.y 1) }
  else p2

/-- `Particle.update(t, k0, f_x)` with the single uniform draw `r` (the value
returned by `random.random()`) made explicit.  If the particle is
unassembled, compare `r` with the transformation probability; on success set
the state and the transformation time.  If the particle is still unassembled
afterwards, move it. -/
noncomputable def Particle.update1 (p : Particle) (t : ℕ) (k0 f_x r : ℝ) : Particle :=
  let p1 : Particle :=
    if p.state = PState.unassembled then
      if r < transformP k0 f_x t then
        { p with state := PState.assembled, transformation_time := some t }
      else p
    else p
  if p1.state = PState.unassembled then p1.move else p1

/-- The global random stream: an infinite sequence of draws together with the
index of the next one.  `random.random()` returns the draw at the current
index and advances it. -/
structure Rng where
  stream : ℕ → ℝ
  idx : ℕ

/-- One call to `random.random()`. -/
def Rng.next (g : Rng) : ℝ × Rng :=
  (g.stream g.idx, { g with idx := g.idx + 1 })

/-- `random.uniform(a, b)`: `a + (b - a) * random.random()`. -/
def uniform (a b : ℝ) (g : Rng) : ℝ × Rng :=
  let (r, g') := g.next
  (a + (b - a) * r, g')

/-- `Particle.update` with the random stream threaded through: an
unassembled particle consumes exactly one draw, an assembled particle
consumes none (the `random.random()` call sits inside the
`if self.state == "unassembled"` branch). -/
noncomputable def Particle.update (p : Particle) (t : ℕ) (k0 f_x : ℝ) (g : Rng) :
    Particle × Rng :=
  if p.state = PState.unassembled then
    let (r, g') := g.next
    (p.update1 t k0 f_x r, g')
  else (p, g)

/-- The Python exception relevant to this program: `ZeroDivisionError`,
raised by `correction_factor` when `sigma == 0`. -/
inductive PyError where
  | zeroDivision : PyError
deriving DecidableEq, Repr

/-- `SelfAssemblyModel`: global parameters, particle list, step counter. -/
structure ModelState where
  width : ℝ
  length : ℝ
  k0 : ℝ
  alpha : ℝ
  x_p : ℝ
  sigma : ℝ
  velocity_mag : ℝ
  particles : List Particle
  time : ℕ

/-- `SelfAssemblyModel.correction_factor(x)`:
`1 + alpha * exp(-((x - x_p) ** 2) / (2 * sigma ** 2))`.  Python raises
`ZeroDivisionError` when the denominator `2 * sigma ** 2` is zero, i.e. when
`sigma == 0`; this is modelled by the `Except` error value. -/
noncomputable def ModelState.correction_factor (m : ModelState) (x : ℝ) :
    Except PyError ℝ :=
  if 2 * m.sigma ^ 2 = 0 then Except.error PyError.zeroDivision
  else Except.ok (1 + m.alpha * Real.exp (-((x - m.x_p) ^ 2) / (2 * m.sigma ^ 2)))

/-- The loop body of `SelfAssemblyModel.step`: for each particle in order,
compute its correction factor from its current `x` and call its update with
the already-incremented time `t`.  A `ZeroDivisionError` from
`correction_factor` aborts the whole loop, as an uncaught Python exception
would. -/
noncomputable def stepParticles (m : ModelState) (t : ℕ) :
    List Particle → Rng → Except PyError (List Particle × Rng)
  | [], g => Except.ok ([], g)
  | p :: rest, g =>
    match m.correction_factor p.x with
    | Except.error e => Except.error e
    | Except.ok f_x =>
      let (p', g') := p.update t m.k0 f_x g
      match stepParticles m t rest g' with
      | Except.error e => Except.error e
      | Except.ok (rest', g'') => Except.ok (p' :: rest', g'')

/-- `SelfAssemblyModel.step()`: increment `time` by one, then update every
particle in order with the new time. -/
noncomputable def ModelState.step (m : ModelState) (g : Rng) :
    Except PyError (ModelState × Rng) :=
  match stepParticles m (m.time + 1) m.particles g with
  | Except.error e => Except.error e
  | Except.ok (ps, g') =>
      Except.ok ({ m with time := m.time + 1, particles := ps }, g')

/-- The particle-creating list comprehension of `SelfAssemblyModel.__init__`:
each particle draws, in order, `x ~ uniform(0, length)`,
`y ~ uniform(0, width)`, `vx ~ uniform(-velocity_mag, velocity_mag)`,
`vy ~ uniform(-velocity_mag, velocity_mag)`. -/
noncomputable def initParticles (length width velocity_mag : ℝ) :
    ℕ → Rng → List Particle × Rng
  | 0, g => ([], g)
  | n + 1, g =>
    let (x, g1) := uniform 0 length g
    let (y, g2) := uniform 0 width g1
    let (vx, g3) := uniform (-velocity_mag) velocity_mag g2
    let (vy, g4) := uniform (-velocity_mag) velocity_mag g3
    let (rest, g5) := initParticles length width velocity_mag n g4
    (Particle.mkInit x y (vx, vy) :: rest, g5)

/-- `SelfAssemblyModel.__init__(N, width, length, k0, alpha, x_p, sigma,
velocity_mag)`: store the parameters, create `N` random particles, set
`time = 0`.  No validation of any kind is performed and nothing is raised:
the constructor is a total function. -/
noncomputable def initModel (N : ℕ)
    (width length k0 alpha x_p sigma velocity_mag : ℝ) (g : Rng) :
    ModelState × Rng :=
  let (ps, g') := initParticles length width velocity_mag N g
  ({ width := width, length := length, k0 := k0, alpha := alpha, x_p := x_p
     sigma := sigma, velocity_mag := velocity_mag, particles := ps
     time := 0 }, g')

/-- `n` consecutive calls to `step()`. -/
noncomputable def runSteps (m : ModelState) (g : Rng) :
    ℕ → Except PyError (ModelState × Rng)
  | 0 => Except.ok (m, g)
  | n + 1 =>
    match m.step g with
    | Except.error e => Except.error e
    | Except.ok (m', g') => runSteps m' g' n

/-- Construct a model from the given parameters and random stream and run
`n` steps. -/
noncomputable def runSim (N : ℕ)
    (width length k0 alpha x_p sigma velocity_mag : ℝ) (seed : ℕ → ℝ)
    (n : ℕ) : Except PyError (ModelState × Rng) :=
  let (m, g) := initModel N width length k0 alpha x_p sigma velocity_mag
    { stream := seed, idx := 0 }
  runSteps m g n

/-- The observation a caller can make of one particle after a step: its
position and its transformation time. -/
def Particle.observe (p : Particle) : (ℝ × ℝ) × Option ℕ :=
  ((p.x, p.y), p.transformation_time)

/-- The per-step trace of a run: after each of the `n` steps, the list of
all particle observations. -/
noncomputable def runTrace (m : ModelState) (g : Rng) :
    ℕ → Except PyError (List (List ((ℝ × ℝ) × Option ℕ)))
  | 0 => Except.ok []
  | n + 1 =>
    match m.step g with
    | Except.error e => Except.error e
    | Except.ok (m', g') =>
      match runTrace m' g' n with
      | Except.error e => Except.error e
      | Except.ok rest => Except.ok ((m'.particles.map Particle.observe) :: rest)

/-! ### Basic lemmas about `Particle.move` and `Particle.update1` -/

/-- Motion and reflection never touch the assembly state. -/
lemma move_state_eq (p : Particle) : p.move.state = p.state := by
  unfold Particle.move
  dsimp only
  split <;> split <;> rfl

/-- Motion and reflection never touch the transformation time. -/
lemma move_ttime_eq (p : Particle) :
    p.move.transformation_time = p.transformation_time := by
  unfold Particle.move
  dsimp only
  split <;> split <;> rfl

/-- After `Particle.move`, the position always lies in the hard-coded box
`[0, 10] × [0, 1]`, whatever the starting position or velocity. -/
lemma move_in_unit_box (p : Particle) :
    0 ≤ p.move.x ∧ p.move.x ≤ 10 ∧ 0 ≤ p.move.y ∧ p.move.y ≤ 1 := by
  unfold Particle.move
  dsimp only
  split
  · rename_i hx
    split
    · refine ⟨le_max_left _ _, max_le (by norm_num) (min_le_right _ _), ?_, ?_⟩
      · exact le_max_left _ _
      · exact max_le (by norm_num) (min_le_right _ _)
    · rename_i hy
      push_neg at hy
      exact ⟨le_max_left _ _, max_le (by norm_num) (min_le_right _ _), hy.1, hy.2⟩
  · rename_i hx
    push_neg at hx
    split
    · exact ⟨hx.1, hx.2, le_max_left _ _, max_le (by norm_num) (min_le_right _ _)⟩
    · rename_i hy
      push_neg at hy
      exact ⟨hx.1, hx.2, hy.1, hy.2⟩

/-- An assembled particle is untouched by `update1`. -/
lemma update1_assembled_eq (p : Particle) (t : ℕ) (k0 f_x r : ℝ)
    (h : p.state = PState.assembled) : p.update1 t k0 f_x r = p := by
  unfold Particle.update1
  simp [h]

/-- An assembled particle is untouched by `update`, and consumes no random
draw. -/
lemma update_assembled_eq (p : Particle) (t : ℕ) (k0 f_x : ℝ) (g : Rng)
    (h : p.state = PState.assembled) : p.update t k0 f_x g = (p, g) := by
  unfold Particle.update
  rw [h]
  simp

/-- An unassembled particle whose draw does not trigger transformation just
moves. -/
lemma update1_no_transform (p : Particle) (t : ℕ) (k0 f_x r : ℝ)
    (hs : p.state = PState.unassembled) (hr : ¬ r < transformP k0 f_x t) :
    p.update1 t k0 f_x r = p.move := by
  unfold Particle.update1
  rw [hs]
  simp [hr, hs]

/-- An unassembled particle whose draw triggers transformation only changes
its state and transformation time. -/
lemma update1_transform (p : Particle) (t : ℕ) (k0 f_x r : ℝ)
    (hs : p.state = PState.unassembled) (hr : r < transformP k0 f_x t) :
    p.update1 t k0 f_x r =
      { p with state := PState.assembled, transformation_time := some t } := by
  unfold Particle.update1
  rw [hs]
  simp [hr]

/-- The all-zero random stream, used to instantiate theorems at concrete
inputs. -/
def zeroRng : Rng := { stream := fun _ => 0, idx := 0 }

/-- The model parameters from the bottom of the source file
(`width = 1`, `length = 10`, `k0 = 0.1`, `alpha = 0`, `x_p = 3.0`,
`sigma = 1.0`, `velocity_mag = 0.05`), with an empty particle list. -/
def mDefault : ModelState :=
  { width := 1, length := 10, k0 := 0.1, alpha := 0, x_p := 3, sigma := 1
    velocity_mag := 0.05, particles := [], time := 0 }

/-- C3: the transformation probability `P = 1 - exp(-k0 * f_x * t^2)` used by
`Particle.update` on an unassembled particle is non-decreasing in the step
counter `t` for fixed `k0 > 0` and `f_x > 0`: for all positive integers
`t1 ≤ t2`, `P(t1) ≤ P(t2)`. -/
theorem transformP_monotone (k0 f_x : ℝ) (hk : 0 < k0) (hf : 0 < f_x)
    (t1 t2 : ℕ) (_ht1 : 0 < t1) (h12 : t1 ≤ t2) :
    transformP k0 f_x t1 ≤ transformP k0 f_x t2 := by
  unfold transformP
  have hc : (t1 : ℝ) ≤ (t2 : ℝ) := Nat.cast_le.mpr h12
  have h2 : ((t1 : ℝ)) ^ 2 ≤ ((t2 : ℝ)) ^ 2 := by
    have h0 : (0 : ℝ) ≤ (t1 : ℝ) := Nat.cast_nonneg t1
    nlinarith
  have hkf : 0 < k0 * f_x := mul_pos hk hf
  have hmul : k0 * f_x * ((t1 : ℝ)) ^ 2 ≤ k0 * f_x * ((t2 : ℝ)) ^ 2 :=
    mul_le_mul_of_nonneg_left h2 hkf.le
  have hexp : Real.exp (-k0 * f_x * (t2 : ℝ) ^ 2) ≤
      Real.exp (-k0 * f_x * (t1 : ℝ) ^ 2) := by
    apply Real.exp_le_exp.mpr
    linarith
  linarith

/-- Witness for C3 at `k0 = 1`, `f_x = 1`, `t1 = 1`, `t2 = 2`. -/
theorem transformP_monotone_witness :
    (0 : ℝ) < 1 ∧ (0 : ℕ) < 1 ∧ (1 : ℕ) ≤ 2 ∧
      transformP 1 1 1 ≤ transformP 1 1 2 :=
  ⟨by norm_num, by norm_num, by norm_num,
    transformP_monotone 1 1 (by norm_num) (by norm_num) 1 2 (by norm_num)
      (by norm_num)⟩

/-- C4: for every model with `sigma ≠ 0` (so that `correction_factor` does
not raise), `correction_factor(x_p) = 1 + alpha` exactly, and
`correction_factor` is symmetric about `x_p`:
`correction_factor(x_p + d) = correction_factor(x_p - d)` for every real
`d`. -/
theorem correction_factor_peak_and_symm (m : ModelState) (hs : m.sigma ≠ 0)
    (d : ℝ) :
    m.correction_factor m.x_p = Except.ok (1 + m.alpha) ∧
      m.correction_factor (m.x_p + d) = m.correction_factor (m.x_p - d) := by
  have hden : ¬ (2 * m.sigma ^ 2 = 0) := by positivity
  constructor
  · unfold ModelState.correction_factor
    rw [if_neg hden]
    norm_num
  · unfold ModelState.correction_factor
    have hsq : (m.x_p + d - m.x_p) ^ 2 = (m.x_p - d - m.x_p) ^ 2 := by ring
    rw [hsq]

/-- Witness for C4 on the model from the source's parameter block, at
`d = 2`. -/
theorem correction_factor_peak_and_symm_witness :
    mDefault.sigma ≠ 0 ∧
      (mDefault.correction_factor mDefault.x_p =
          Except.ok (1 + mDefault.alpha) ∧
        mDefault.correction_factor (mDefault.x_p + 2) =
          mDefault.correction_factor (mDefault.x_p - 2)) :=
  ⟨by norm_num [mDefault],
    correction_factor_peak_and_symm mDefault (by norm_num [mDefault]) 2⟩

/-- C5: if a particle is assembled on entry to `Particle.update`, the call
changes nothing — state, transformation time, position and velocity are all
unchanged (the particle value is returned verbatim) — and no random draw is
consumed. -/
theorem update_assembled_noop (p : Particle) (t : ℕ) (k0 f_x r : ℝ)
    (g : Rng) (h : p.state = PState.assembled) :
    p.update1 t k0 f_x r = p ∧ p.update t k0 f_x g = (p, g) :=
  ⟨update1_assembled_eq p t k0 f_x r h, update_assembled_eq p t k0 f_x g h⟩

/-- Witness for C5 on a concrete assembled particle. -/
theorem update_assembled_noop_witness :
    (Particle.mk 4 0.5 (0.05, 0.01) PState.assembled
        (some 3)).state = PState.assembled ∧
      ((Particle.mk 4 0.5 (0.05, 0.01) PState.assembled
          (some 3)).update1 7 0.1 1 0 =
        Particle.mk 4 0.5 (0.05, 0.01) PState.assembled (some 3) ∧
      (Particle.mk 4 0.5 (0.05, 0.01) PState.assembled
          (some 3)).update 7 0.1 1 zeroRng =
        (Particle.mk 4 0.5 (0.05, 0.01) PState.assembled (some 3), zeroRng)) :=
  ⟨rfl, update_assembled_noop _ 7 0.1 1 0 zeroRng rfl⟩

/-- C10: `Particle.update` clamps against the hard-coded constants `10` and
`1`: whenever motion is applied (the particle is unassembled and the draw
does not trigger transformation), the resulting position lies in
`[0, 10] × [0, 1]` — the model's `length` and `width` do not appear in the
motion code at all. -/
theorem update_clamps_constants (p : Particle) (t : ℕ) (k0 f_x r : ℝ)
    (hs : p.state = PState.unassembled) (hr : ¬ r < transformP k0 f_x t) :
    0 ≤ (p.update1 t k0 f_x r).x ∧ (p.update1 t k0 f_x r).x ≤ 10 ∧
      0 ≤ (p.update1 t k0 f_x r).y ∧ (p.update1 t k0 f_x r).y ≤ 1 := by
  rw [update1_no_transform p t k0 f_x r hs hr]
  exact move_in_unit_box p

/-- Witness for C10 on a particle that starts far outside the box
`[0, 10] × [0, 1]` (with `k0 = 0` the transformation probability is `0`, so
the zero draw does not trigger). -/
theorem update_clamps_constants_witness :
    (Particle.mk 20 5 (0.3, 0.2) PState.unassembled none).state =
        PState.unassembled ∧
      ¬ (0 : ℝ) < transformP 0 1 1 ∧
      (0 ≤ ((Particle.mk 20 5 (0.3, 0.2) PState.unassembled
          none).update1 1 0 1 0).x ∧
        ((Particle.mk 20 5 (0.3, 0.2) PState.unassembled
            none).update1 1 0 1 0).x ≤ 10 ∧
        0 ≤ ((Particle.mk 20 5 (0.3, 0.2) PState.unassembled
            none).update1 1 0 1 0).y ∧
        ((Particle.mk 20 5 (0.3, 0.2) PState.unassembled
            none).update1 1 0 1 0).y ≤ 1) :=
  ⟨rfl, by norm_num [transformP, Real.exp_zero],
    update_clamps_constants _ 1 0 1 0 rfl
      (by norm_num [transformP, Real.exp_zero])⟩

/-- C8: an unassembled particle at `x = 9.98` with `vx = +0.05` whose draw
does not trigger transformation is reflected at the upper `x` bound: the new
unclamped `x` would be `10.03 > 10`, so `vx` becomes `-0.05` and `x` is
clamped to `10`.  (The bound is the constant `10`, which coincides with the
scenario's `length = 10`.) -/
theorem boundary_reflection_scenario (y vy : ℝ) (t : ℕ) (k0 f_x r : ℝ)
    (hr : ¬ r < transformP k0 f_x t) :
    ((Particle.mk 9.98 y (0.05, vy) PState.unassembled
        none).update1 t k0 f_x r).x = 10 ∧
      ((Particle.mk 9.98 y (0.05, vy) PState.unassembled
          none).update1 t k0 f_x r).velocity.1 = -0.05 := by
  rw [update1_no_transform _ t k0 f_x r rfl hr]
  unfold Particle.move
  dsimp only
  rw [if_pos (by norm_num : (9.98 : ℝ) + 0.05 < 0 ∨ (9.98 : ℝ) + 0.05 > 10)]
  constructor
  · split
    · show max 0 (min (9.98 + 0.05) 10) = 10
      norm_num
    · show max 0 (min (9.98 + 0.05) 10) = 10
      norm_num
  · split
    · rfl
    · rfl

/-- Witness for C8 at `y = 0.5`, `vy = 0`, `t = 1`, `k0 = 0`, `f_x = 1`,
`r = 0`. -/
theorem boundary_reflection_scenario_witness :
    ¬ (0 : ℝ) < transformP 0 1 1 ∧
      (((Particle.mk 9.98 0.5 (0.05, 0) PState.unassembled
            none).update1 1 0 1 0).x = 10 ∧
        ((Particle.mk 9.98 0.5 (0.05, 0) PState.unassembled
            none).update1 1 0 1 0).velocity.1 = -0.05) :=
  ⟨by norm_num [transformP, Real.exp_zero],
    boundary_reflection_scenario 0.5 0 1 0 1 0
      (by norm_num [transformP, Real.exp_zero])⟩

/-! ### Preservation of per-particle properties across steps -/

/-- A per-particle property preserved by `update1` (for nonnegative draws)
is preserved by the stream-threaded `update`, which also leaves the draw
stream itself unchanged. -/
lemma update_preserve (Q : Particle → Prop) (t : ℕ) (k0 : ℝ)
    (hQ : ∀ (p : Particle) (f_x r : ℝ), 0 ≤ r → Q p → Q (p.update1 t k0 f_x r))
    (p : Particle) (f_x : ℝ) (g : Rng) (hg : ∀ i, 0 ≤ g.stream i)
    (hp : Q p) :
    Q (p.update t k0 f_x g).1 ∧ (p.update t k0 f_x g).2.stream = g.stream := by
  unfold Particle.update
  by_cases h : p.state = PState.unassembled
  · rw [if_pos h]
    exact ⟨hQ p f_x (g.stream g.idx) (hg g.idx) hp, rfl⟩
  · rw [if_neg h]
    exact ⟨hp, rfl⟩

/-- A per-particle property preserved by `update1` is preserved by the
per-step particle loop, which also leaves the draw stream unchanged. -/
lemma stepParticles_preserve (m : ModelState) (t : ℕ) (Q : Particle → Prop)
    (hQ : ∀ (p : Particle) (f_x r : ℝ), 0 ≤ r → Q p →
      Q (p.update1 t m.k0 f_x r)) :
    ∀ (ps : List Particle) (g : Rng) (ps' : List Particle) (g' : Rng),
      stepParticles m t ps g = Except.ok (ps', g') →
      (∀ i, 0 ≤ g.stream i) → (∀ p ∈ ps, Q p) →
      (∀ p ∈ ps', Q p) ∧ g'.stream = g.stream := by
  intro ps
  induction ps with
  | nil =>
    intro g ps' g' h hg hps
    unfold stepParticles at h
    simp only [Except.ok.injEq, Prod.mk.injEq] at h
    obtain ⟨h1, h2⟩ := h
    subst h1
    subst h2
    exact ⟨by simp, rfl⟩
  | cons p rest ih =>
    intro g ps' g' h hg hps
    unfold stepParticles at h
    cases hcf : m.correction_factor p.x with
    | error e =>
      rw [hcf] at h
      simp at h
    | ok f_x =>
      rw [hcf] at h
      dsimp only at h
      rcases hu : p.update t m.k0 f_x g with ⟨p1, g1⟩
      rw [hu] at h
      dsimp only at h
      cases hrec : stepParticles m t rest g1 with
      | error e =>
        rw [hrec] at h
        simp at h
      | ok pr =>
        rcases pr with ⟨rest', g2⟩
        rw [hrec] at h
        simp only [Except.ok.injEq, Prod.mk.injEq] at h
        obtain ⟨h1, h2⟩ := h
        subst h2
        subst h1
        have hup := update_preserve Q t m.k0 hQ p f_x g hg
          (hps p (List.mem_cons_self _ _))
        rw [hu] at hup
        have hg1 : ∀ i, 0 ≤ g1.stream i := by
          intro i
          rw [hup.2]
          exact hg i
        have ihr := ih g1 rest' g2 hrec hg1
          (fun q hq => hps q (List.mem_cons_of_mem _ hq))
        constructor
        · intro q hq
          rcases List.mem_cons.mp hq with hh | hh
          · subst hh
            exact hup.1
          · exact ihr.1 q hh
        · rw [ihr.2, hup.2]

/-- Unfolding `ModelState.step`: the new particle list is the output of the
particle loop, time advances by one, and all parameters are unchanged. -/
lemma step_particles_eq (m : ModelState) (g : Rng) (m' : ModelState)
    (g' : Rng) (h : m.step g = Except.ok (m', g')) :
    stepParticles m (m.time + 1) m.particles g =
        Except.ok (m'.particles, g') ∧
      m'.time = m.time + 1 ∧ m'.k0 = m.k0 ∧ m'.width = m.width ∧
      m'.length = m.length ∧ m'.alpha = m.alpha ∧ m'.x_p = m.x_p ∧
      m'.sigma = m.sigma := by
  unfold ModelState.step at h
  cases hsp : stepParticles m (m.time + 1) m.particles g with
  | error e =>
    rw [hsp] at h
    simp at h
  | ok pr =>
    rcases pr with ⟨ps', g2⟩
    rw [hsp] at h
    simp only [Except.ok.injEq, Prod.mk.injEq] at h
    obtain ⟨h1, h2⟩ := h
    subst h2
    subst h1
    exact ⟨rfl, rfl, rfl, rfl, rfl, rfl, rfl, rfl⟩

/-- A per-particle property preserved by `update1` at the model's `k0` holds
after any number of `step()` calls, provided it holds initially and all
random draws are nonnegative. -/
lemma runSteps_preserve (Q : Particle → Prop) (k0v : ℝ)
    (hQ : ∀ (p : Particle) (t : ℕ) (f_x r : ℝ), 0 ≤ r → Q p →
      Q (p.update1 t k0v f_x r)) :
    ∀ (n : ℕ) (m : ModelState) (g : Rng) (m' : ModelState) (g' : Rng),
      runSteps m g n = Except.ok (m', g') →
      m.k0 = k0v → (∀ i, 0 ≤ g.stream i) → (∀ p ∈ m.particles, Q p) →
      ∀ p ∈ m'.particles, Q p := by
  intro n
  induction n with
  | zero =>
    intro m g m' g' h hk hg hps
    unfold runSteps at h
    simp only [Except.ok.injEq, Prod.mk.injEq] at h
    obtain ⟨h1, h2⟩ := h
    subst h1
    exact hps
  | succ n ih =>
    intro m g m' g' h hk hg hps
    unfold runSteps at h
    cases hstep : m.step g with
    | error e =>
      rw [hstep] at h
      simp at h
    | ok pr =>
      rcases pr with ⟨m1, g1⟩
      rw [hstep] at h
      dsimp only at h
      have heq := step_particles_eq m g m1 g1 hstep
      have hQm : ∀ (p : Particle) (f_x r : ℝ), 0 ≤ r → Q p →
          Q (p.update1 (m.time + 1) m.k0 f_x r) := by
        intro p f_x r hr hp
        rw [hk]
        exact hQ p (m.time + 1) f_x r hr hp
      have hpres := stepParticles_preserve m (m.time + 1) Q hQm m.particles g
        m1.particles g1 heq.1 hg hps
      exact ih m1 g1 m' g' h (heq.2.2.1.trans hk)
        (fun i => by rw [hpres.2]; exact hg i) hpres.1

/-- The per-step particle loop preserves list length and leaves every
assembled particle literally unchanged at its position in the list. -/
lemma stepParticles_frozen (m : ModelState) (t : ℕ) :
    ∀ (ps : List Particle) (g : Rng) (ps' : List Particle) (g' : Rng),
      stepParticles m t ps g = Except.ok (ps', g') →
      ps'.length = ps.length ∧
        ∀ (i : ℕ) (hi : i < ps.length) (hi' : i < ps'.length),
          (ps.get ⟨i, hi⟩).state = PState.assembled →
          ps'.get ⟨i, hi'⟩ = ps.get ⟨i, hi⟩ := by
  intro ps
  induction ps with
  | nil =>
    intro g ps' g' h
    unfold stepParticles at h
    simp only [Except.ok.injEq, Prod.mk.injEq] at h
    obtain ⟨h1, h2⟩ := h
    subst h1
    exact ⟨rfl, fun i hi => absurd hi (Nat.not_lt_zero i)⟩
  | cons p rest ih =>
    intro g ps' g' h
    unfold stepParticles at h
    cases hcf : m.correction_factor p.x with
    | error e =>
      rw [hcf] at h
      simp at h
    | ok f_x =>
      rw [hcf] at h
      dsimp only at h
      rcases hu : p.update t m.k0 f_x g with ⟨p1, g1⟩
      rw [hu] at h
      dsimp only at h
      cases hrec : stepParticles m t rest g1 with
      | error e =>
        rw [hrec] at h
        simp at h
      | ok pr =>
        rcases pr with ⟨rest', g2⟩
        rw [hrec] at h
        simp only [Except.ok.injEq, Prod.mk.injEq] at h
        obtain ⟨h1, h2⟩ := h
        subst h2
        subst h1
        have ihr := ih g1 rest' g2 hrec
        refine ⟨by simp [ihr.1], ?_⟩
        intro i hi hi' hassembled
        cases i with
        | zero =>
          have := update_assembled_eq p t m.k0 f_x g hassembled
          rw [hu] at this
          simp only [Prod.mk.injEq] at this
          exact this.1
        | succ j =>
          exact ihr.2 j (Nat.lt_of_succ_lt_succ hi)
            (Nat.lt_of_succ_lt_succ hi') hassembled

/-- The particle-creating loop of the constructor does not change the draw
stream, and every particle it creates is unassembled with no transformation
time. -/
lemma initParticles_fresh (length width vm : ℝ) :
    ∀ (n : ℕ) (g : Rng),
      (initParticles length width vm n g).2.stream = g.stream ∧
        ∀ p ∈ (initParticles length width vm n g).1,
          p.state = PState.unassembled ∧ p.transformation_time = none := by
  intro n
  induction n with
  | zero =>
    intro g
    exact ⟨rfl, by simp [initParticles]⟩
  | succ k ih =>
    intro g
    constructor
    · show (initParticles length width vm k _).2.stream = g.stream
      rw [(ih _).1]
    · intro p hp
      rcases List.mem_cons.mp hp with hh | hh
      · subst hh
        exact ⟨rfl, rfl⟩
      · exact (ih _).2 p hh

/-- If all draws lie in `[0, 1]` and the channel extents are positive, every
particle created by the constructor starts inside `[0, length] × [0, width]`. -/
lemma initParticles_in_bounds (L W vm : ℝ) (hL : 0 < L) (hW : 0 < W) :
    ∀ (n : ℕ) (g : Rng), (∀ i, 0 ≤ g.stream i ∧ g.stream i ≤ 1) →
      ∀ p ∈ (initParticles L W vm n g).1,
        0 ≤ p.x ∧ p.x ≤ L ∧ 0 ≤ p.y ∧ p.y ≤ W := by
  intro n
  induction n with
  | zero =>
    intro g hg p hp
    simp [initParticles] at hp
  | succ k ih =>
    intro g hg p hp
    rcases List.mem_cons.mp hp with hh | hh
    · subst hh
      simp only [Particle.mkInit]
      have hx := hg g.idx
      have hy := hg (g.idx + 1)
      refine ⟨by nlinarith [hx.1, hx.2], by nlinarith [hx.1, hx.2],
        by nlinarith [hy.1, hy.2], by nlinarith [hy.1, hy.2]⟩
    · refine ih _ ?_ p hh
      intro i
      exact hg i

/-- `runSim` unfolded to its two stages. -/
lemma runSim_eq (N : ℕ) (w l k0 a xp s vm : ℝ) (seed : ℕ → ℝ) (n : ℕ) :
    runSim N w l k0 a xp s vm seed n =
      runSteps (initModel N w l k0 a xp s vm { stream := seed, idx := 0 }).1
        (initModel N w l k0 a xp s vm { stream := seed, idx := 0 }).2 n := rfl

/-- The constructor stores the `k0` parameter unchanged. -/
lemma initModel_k0 (N : ℕ) (w l k0 a xp s vm : ℝ) (g : Rng) :
    (initModel N w l k0 a xp s vm g).1.k0 = k0 := rfl

/-- The constructor's particle list is the one built by `initParticles`. -/
lemma initModel_particles (N : ℕ) (w l k0 a xp s vm : ℝ) (g : Rng) :
    (initModel N w l k0 a xp s vm g).1.particles =
      (initParticles l w vm N g).1 := rfl

/-- The constructor advances the random stream's index but not the stream
itself. -/
lemma initModel_rng_stream (N : ℕ) (w l k0 a xp s vm : ℝ) (g : Rng) :
    (initModel N w l k0 a xp s vm g).2.stream = g.stream :=
  (initParticles_fresh l w vm N g).1

/-- `update1` preserves the state–transformation-time coupling. -/
lemma update1_invTP (p : Particle) (t : ℕ) (k0 f_x r : ℝ)
    (hp : p.state = PState.assembled ↔ p.transformation_time ≠ none) :
    (p.update1 t k0 f_x r).state = PState.assembled ↔
      (p.update1 t k0 f_x r).transformation_time ≠ none := by
  cases hs : p.state with
  | assembled =>
    rw [update1_assembled_eq p t k0 f_x r hs]
    exact hp
  | unassembled =>
    by_cases hr : r < transformP k0 f_x t
    · rw [update1_transform p t k0 f_x r hs hr]
      simp
    · rw [update1_no_transform p t k0 f_x r hs hr,
        move_state_eq, move_ttime_eq]
      exact hp

/-- C6: after construction and after every sequence of `step()` calls, every
particle satisfies `state == Assembled` iff `transformation_time` is set;
moreover, once a particle is assembled a further `step()` leaves it literally
unchanged (so its transformation time is set exactly once and its state
never reverts). -/
theorem state_ttime_invariant (N n : ℕ) (w l k0 a xp s vm : ℝ)
    (seed : ℕ → ℝ) (hseed : ∀ i, 0 ≤ seed i) (m' : ModelState) (g' : Rng)
    (h : runSim N w l k0 a xp s vm seed n = Except.ok (m', g')) :
    (∀ p ∈ m'.particles,
        (p.state = PState.assembled ↔ p.transformation_time ≠ none)) ∧
      ∀ (g2 : Rng) (m2 : ModelState) (g2' : Rng),
        m'.step g2 = Except.ok (m2, g2') →
        ∀ (i : ℕ) (hi : i < m'.particles.length)
          (hi2 : i < m2.particles.length),
          (m'.particles.get ⟨i, hi⟩).state = PState.assembled →
          m2.particles.get ⟨i, hi2⟩ = m'.particles.get ⟨i, hi⟩ := by
  constructor
  · rw [runSim_eq] at h
    refine runSteps_preserve
      (fun p => p.state = PState.assembled ↔ p.transformation_time ≠ none)
      k0 (fun p t f_x r _ hp => update1_invTP p t k0 f_x r hp) n _ _ m' g' h
      (initModel_k0 N w l k0 a xp s vm _) ?_ ?_
    · intro i
      rw [initModel_rng_stream]
      exact hseed i
    · intro p hp
      rw [initModel_particles] at hp
      have hf := (initParticles_fresh l w vm N _).2 p hp
      rw [hf.1, hf.2]
      simp
  · intro g2 m2 g2' hstep i hi hi2 hassembled
    have heq := step_particles_eq m' g2 m2 g2' hstep
    exact (stepParticles_frozen m' (m'.time + 1) m'.particles g2
      m2.particles g2' heq.1).2 i hi hi2 hassembled

/-- Witness for C6: a run of zero steps on a zero-particle model with the
zero stream. -/
theorem state_ttime_invariant_witness :
    ((0 : ℝ) ≤ 0) ∧
      ∀ p ∈ (initModel 0 1 10 0.1 0 3 1 0.05
          { stream := fun _ => 0, idx := 0 }).1.particles,
        (p.state = PState.assembled ↔ p.transformation_time ≠ none) :=
  ⟨le_refl 0,
    (state_ttime_invariant 0 0 1 10 0.1 0 3 1 0.05 (fun _ => 0)
      (fun _ => le_refl 0) _ _ rfl).1⟩

/-- C7: with `k0 = 0` the transformation probability is `0` at every step
and for every correction factor, and no particle ever leaves the
unassembled state, whatever the (nonnegative) random draws and however many
steps are taken. -/
theorem k0_zero_no_transform (N n : ℕ) (w l a xp s vm : ℝ) (seed : ℕ → ℝ)
    (hseed : ∀ i, 0 ≤ seed i) (m' : ModelState) (g' : Rng)
    (h : runSim N w l 0 a xp s vm seed n = Except.ok (m', g')) :
    (∀ (f_x : ℝ) (t : ℕ), transformP 0 f_x t = 0) ∧
      ∀ p ∈ m'.particles, p.state = PState.unassembled := by
  have hP : ∀ (f_x : ℝ) (t : ℕ), transformP 0 f_x t = 0 := by
    intro f_x t
    simp [transformP, Real.exp_zero]
  refine ⟨hP, ?_⟩
  rw [runSim_eq] at h
  refine runSteps_preserve (fun p => p.state = PState.unassembled) 0 ?_ n
    _ _ m' g' h (initModel_k0 N w l 0 a xp s vm _) ?_ ?_
  · intro p t f_x r hr hp
    have hr' : ¬ r < transformP 0 f_x t := by
      rw [hP f_x t]
      exact not_lt.mpr hr
    rw [update1_no_transform p t 0 f_x r hp hr', move_state_eq]
    exact hp
  · intro i
    rw [initModel_rng_stream]
    exact hseed i
  · intro p hp
    rw [initModel_particles] at hp
    exact ((initParticles_fresh l w vm N _).2 p hp).1

/-- Witness for C7: one step of a zero-particle model with `k0 = 0` and the
zero stream. -/
theorem k0_zero_no_transform_witness :
    ((0 : ℝ) ≤ 0) ∧ transformP 0 1 1 = 0 ∧
      ∀ p ∈ (initModel 0 1 10 0 0 3 1 0.05
          { stream := fun _ => 0, idx := 0 }).1.particles,
        p.state = PState.unassembled :=
  ⟨le_refl 0,
    (k0_zero_no_transform 0 0 1 10 0 3 1 0.05 (fun _ => 0)
      (fun _ => le_refl 0) _ _ rfl).1 1 1,
    (k0_zero_no_transform 0 0 1 10 0 3 1 0.05 (fun _ => 0)
      (fun _ => le_refl 0) _ _ rfl).2⟩

/-- `update1` keeps a particle inside `[0, max length 10] × [0, max width 1]`. -/
lemma update1_in_amended_box (l w : ℝ) (p : Particle) (t : ℕ) (k0 f_x r : ℝ)
    (hp : 0 ≤ p.x ∧ p.x ≤ max l 10 ∧ 0 ≤ p.y ∧ p.y ≤ max w 1) :
    0 ≤ (p.update1 t k0 f_x r).x ∧ (p.update1 t k0 f_x r).x ≤ max l 10 ∧
      0 ≤ (p.update1 t k0 f_x r).y ∧ (p.update1 t k0 f_x r).y ≤ max w 1 := by
  cases hs : p.state with
  | assembled =>
    rw [update1_assembled_eq p t k0 f_x r hs]
    exact hp
  | unassembled =>
    by_cases hr : r < transformP k0 f_x t
    · rw [update1_transform p t k0 f_x r hs hr]
      exact hp
    · rw [update1_no_transform p t k0 f_x r hs hr]
      have hm := move_in_unit_box p
      exact ⟨hm.1, hm.2.1.trans (le_max_right l 10), hm.2.2.1,
        hm.2.2.2.trans (le_max_right w 1)⟩

/-- C1 (amended): for a model built with positive `length` and `width` and
draws in `[0, 1]`, every particle's position after any sequence of `step()`
calls satisfies `0 ≤ x ≤ max length 10` and `0 ≤ y ≤ max width 1`: the
motion code clamps against the constants `10` and `1`, not against the
model's `length` and `width`, so the claimed bounds hold exactly when
`length = 10` and `width = 1`. -/
theorem position_bound_amended (N n : ℕ) (w l k0 a xp s vm : ℝ)
    (seed : ℕ → ℝ) (hl : 0 < l) (hw : 0 < w)
    (hseed : ∀ i, 0 ≤ seed i ∧ seed i ≤ 1) (m' : ModelState) (g' : Rng)
    (h : runSim N w l k0 a xp s vm seed n = Except.ok (m', g')) :
    ∀ p ∈ m'.particles,
      0 ≤ p.x ∧ p.x ≤ max l 10 ∧ 0 ≤ p.y ∧ p.y ≤ max w 1 := by
  rw [runSim_eq] at h
  refine runSteps_preserve
    (fun p => 0 ≤ p.x ∧ p.x ≤ max l 10 ∧ 0 ≤ p.y ∧ p.y ≤ max w 1) k0
    (fun p t f_x r _ hp => update1_in_amended_box l w p t k0 f_x r hp) n
    _ _ m' g' h (initModel_k0 N w l k0 a xp s vm _) ?_ ?_
  · intro i
    rw [initModel_rng_stream]
    exact (hseed i).1
  · intro p hp
    rw [initModel_particles] at hp
    have hb := initParticles_in_bounds l w vm hl hw N _ (fun i => hseed i) p hp
    exact ⟨hb.1, hb.2.1.trans (le_max_left l 10), hb.2.2.1,
      hb.2.2.2.trans (le_max_left w 1)⟩

/-- Witness for C1 (amended) on a zero-particle model with the source's
`length = 10`, `width = 1`. -/
theorem position_bound_amended_witness :
    (0 : ℝ) < 10 ∧ (0 : ℝ) < 1 ∧
      ∀ p ∈ (initModel 0 1 10 0.1 0 3 1 0.05
          { stream := fun _ => 0, idx := 0 }).1.particles,
        0 ≤ p.x ∧ p.x ≤ max (10 : ℝ) 10 ∧ 0 ≤ p.y ∧ p.y ≤ max (1 : ℝ) 1 :=
  ⟨by norm_num, by norm_num,
    position_bound_amended 0 0 1 10 0.1 0 3 1 0.05 (fun _ => 0)
      (by norm_num) (by norm_num) (fun i => by norm_num) _ _ rfl⟩

/-- The constructor stores the `sigma` parameter unchanged. -/
lemma initModel_sigma (N : ℕ) (w l k0 a xp s vm : ℝ) (g : Rng) :
    (initModel N w l k0 a xp s vm g).1.sigma = s := rfl

/-- The constructor stores the `length` parameter unchanged. -/
lemma initModel_length (N : ℕ) (w l k0 a xp s vm : ℝ) (g : Rng) :
    (initModel N w l k0 a xp s vm g).1.length = l := rfl

/-- The constructor stores the `width` parameter unchanged. -/
lemma initModel_width (N : ℕ) (w l k0 a xp s vm : ℝ) (g : Rng) :
    (initModel N w l k0 a xp s vm g).1.width = w := rfl

/-- C9: runs are deterministic — two runs with identical construction
parameters, the same seeded draw stream and the same number of `step()`
calls produce identical per-step traces of particle positions and
transformation times. -/
theorem two_run_determinism (N : ℕ) (w l k0 a xp s vm : ℝ) (seed : ℕ → ℝ)
    (n : ℕ) (r1 r2 : Except PyError (List (List ((ℝ × ℝ) × Option ℕ))))
    (h1 : r1 = runTrace
        (initModel N w l k0 a xp s vm { stream := seed, idx := 0 }).1
        (initModel N w l k0 a xp s vm { stream := seed, idx := 0 }).2 n)
    (h2 : r2 = runTrace
        (initModel N w l k0 a xp s vm { stream := seed, idx := 0 }).1
        (initModel N w l k0 a xp s vm { stream := seed, idx := 0 }).2 n) :
    r1 = r2 := h1.trans h2.symm

/-- Witness for C9: two three-step runs of a two-particle model from the
zero stream. -/
theorem two_run_determinism_witness :
    runTrace (initModel 2 1 10 0.1 0 3 1 0.05
        { stream := fun _ => 0, idx := 0 }).1
      (initModel 2 1 10 0.1 0 3 1 0.05
        { stream := fun _ => 0, idx := 0 }).2 3 =
    runTrace (initModel 2 1 10 0.1 0 3 1 0.05
        { stream := fun _ => 0, idx := 0 }).1
      (initModel 2 1 10 0.1 0 3 1 0.05
        { stream := fun _ => 0, idx := 0 }).2 3 :=
  two_run_determinism 2 1 10 0.1 0 3 1 0.05 (fun _ => 0) 3 _ _ rfl rfl

/-- C2 (counterexample): construction with `sigma = 0` does not raise — it
returns a model (its `sigma` field is `0`), and the `ZeroDivisionError`
appears only when `correction_factor` is evaluated; construction with
degenerate bounds `width = -1`, `length = -2` also returns a model. -/
theorem construction_no_validation_cex :
    (initModel 0 1 10 0.1 0 3 0 0.05
        { stream := fun _ => 0, idx := 0 }).1.sigma = 0 ∧
      (initModel 0 1 10 0.1 0 3 0 0.05
          { stream := fun _ => 0, idx := 0 }).1.correction_factor 5 =
        Except.error PyError.zeroDivision ∧
      (initModel 0 (-1) (-2) 0.1 0 3 1 0.05
          { stream := fun _ => 0, idx := 0 }).1.length = -2 ∧
      (initModel 0 (-1) (-2) 0.1 0 3 1 0.05
          { stream := fun _ => 0, idx := 0 }).1.width = -1 := by
  refine ⟨rfl, ?_, rfl, rfl⟩
  unfold ModelState.correction_factor
  rw [initModel_sigma]
  norm_num

/-- C2 (amended): construction validates nothing and always returns a model
holding the given parameters, even for `sigma = 0` or non-positive bounds;
a `sigma = 0` violation surfaces only when `correction_factor` is called
(as a `ZeroDivisionError`), and for `sigma ≠ 0` `correction_factor` never
fails. -/
theorem construction_total_amended (N : ℕ) (w l k0 a xp s vm : ℝ)
    (g : Rng) :
    ((initModel N w l k0 a xp s vm g).1.sigma = s ∧
      (initModel N w l k0 a xp s vm g).1.length = l ∧
      (initModel N w l k0 a xp s vm g).1.width = w ∧
      (initModel N w l k0 a xp s vm g).1.time = 0) ∧
    (s = 0 → ∀ x : ℝ,
      (initModel N w l k0 a xp s vm g).1.correction_factor x =
        Except.error PyError.zeroDivision) ∧
    (s ≠ 0 → ∀ x : ℝ, ∃ v : ℝ,
      (initModel N w l k0 a xp s vm g).1.correction_factor x =
        Except.ok v) := by
  refine ⟨⟨rfl, rfl, rfl, rfl⟩, ?_, ?_⟩
  · intro hs x
    unfold ModelState.correction_factor
    rw [initModel_sigma, hs]
    norm_num
  · intro hs x
    unfold ModelState.correction_factor
    rw [initModel_sigma]
    rw [if_neg (by positivity : ¬ (2 * s ^ 2 = 0))]
    exact ⟨_, rfl⟩

/-- Witness for C2 (amended) at `sigma = 0`. -/
theorem construction_total_amended_witness :
    (initModel 0 1 10 0.1 0 3 0 0.05
        { stream := fun _ => 0, idx := 0 }).1.sigma = 0 ∧
      (initModel 0 1 10 0.1 0 3 0 0.05
          { stream := fun _ => 0, idx := 0 }).1.correction_factor 0 =
        Except.error PyError.zeroDivision :=
  ⟨(construction_total_amended 0 1 10 0.1 0 3 0 0.05
      { stream := fun _ => 0, idx := 0 }).1.1,
    (construction_total_amended 0 1 10 0.1 0 3 0 0.05
      { stream := fun _ => 0, idx := 0 }).2.1 rfl 0⟩

/-- A concrete draw stream (all values in `[0, 1)`): the four construction
draws place one particle at `(4.98, 0.5)` with velocity `(0.05, 0)` in a
channel of `length = 5`, and the step draw is `0`. -/
def c1seed : ℕ → ℝ := fun i =>
  if i = 0 then 0.996
  else if i = 1 then 0.5
  else if i = 2 then 0.75
  else if i = 3 then 0.5
  else 0

/-- The particle created by the construction draws of `c1seed`. -/
def pC1 : Particle :=
  { x := 4.98, y := 0.5, velocity := (0.05, 0)
    state := PState.unassembled, transformation_time := none }

/-- The model built from `N = 1`, `width = 1`, `length = 5`, `k0 = 0`,
`alpha = 0`, `x_p = 3`, `sigma = 1`, `velocity_mag = 0.1` and `c1seed`. -/
def mC1 : ModelState :=
  { width := 1, length := 5, k0 := 0, alpha := 0, x_p := 3, sigma := 1
    velocity_mag := 0.1, particles := [pC1], time := 0 }

/-- The particle after one step: moved to `x = 5.03`, beyond `length = 5`. -/
def pC1' : Particle :=
  { x := 5.03, y := 0.5, velocity := (0.05, 0)
    state := PState.unassembled, transformation_time := none }

/-- C1 (counterexample): a model constructed with positive `width = 1` and
`length = 5`, from draws all inside `[0, 1)`, starts its only particle at
`x = 4.98 ∈ [0, 5]`, yet after one `step()` the particle sits at
`x = 5.03 > length`: the boundary invariant `0 ≤ x ≤ length` fails, because
`Particle.update` clamps against the constant `10`, not `length`. -/
theorem position_escapes_length_cex :
    (0 : ℝ) < 5 ∧ (0 : ℝ) < 1 ∧ (∀ i, 0 ≤ c1seed i ∧ c1seed i < 1) ∧
      ((runSim 1 1 5 0 0 3 1 0.1 c1seed 0).map
          (fun mg => mg.1.particles.map Particle.x) = Except.ok [4.98] ∧
        (0 : ℝ) ≤ 4.98 ∧ (4.98 : ℝ) ≤ 5) ∧
      ((runSim 1 1 5 0 0 3 1 0.1 c1seed 1).map
          (fun mg => mg.1.particles.map Particle.x) = Except.ok [5.03] ∧
        ¬ ((5.03 : ℝ) ≤ 5)) := by
  have hini : initModel 1 1 5 0 0 3 1 0.1 { stream := c1seed, idx := 0 } =
      (mC1, { stream := c1seed, idx := 4 }) := by
    unfold initModel initParticles uniform Rng.next Particle.mkInit
    dsimp only
    unfold initParticles
    dsimp only
    norm_num [c1seed, mC1, pC1, ModelState.mk.injEq, Particle.mk.injEq,
      Prod.mk.injEq]
  have hcf : mC1.correction_factor pC1.x = Except.ok 1 := by
    unfold ModelState.correction_factor
    rw [if_neg (by norm_num [mC1] : ¬ (2 * mC1.sigma ^ 2 = 0))]
    norm_num [mC1]
  have hmv : pC1.move = pC1' := by
    unfold Particle.move
    dsimp only [pC1]
    rw [if_neg (by norm_num : ¬ ((4.98 : ℝ) + 0.05 < 0 ∨
      (4.98 : ℝ) + 0.05 > 10))]
    rw [if_neg (by norm_num : ¬ ((0.5 : ℝ) + 0 < 0 ∨ (0.5 : ℝ) + 0 > 1))]
    norm_num [pC1', Particle.mk.injEq]
  have hP : transformP 0 1 1 = 0 := by
    simp [transformP, Real.exp_zero]
  have hu1 : pC1.update1 1 0 1 0 = pC1' := by
    rw [update1_no_transform pC1 1 0 1 0 rfl (by rw [hP]; exact lt_irrefl 0),
      hmv]
  have hupd : pC1.update 1 mC1.k0 1 { stream := c1seed, idx := 4 } =
      (pC1', { stream := c1seed, idx := 5 }) := by
    show (pC1.update1 1 0 1 0, ({ stream := c1seed, idx := 5 } : Rng)) =
      (pC1', { stream := c1seed, idx := 5 })
    rw [hu1]
  have hsp : stepParticles mC1 (mC1.time + 1) [pC1]
      { stream := c1seed, idx := 4 } =
      Except.ok ([pC1'], { stream := c1seed, idx := 5 }) := by
    unfold stepParticles
    rw [hcf]
    dsimp only
    rw [show mC1.time + 1 = 1 from rfl]
    rw [hupd]
    rfl
  have hstep : mC1.step { stream := c1seed, idx := 4 } =
      Except.ok ({ mC1 with particles := [pC1'], time := 1 },
        { stream := c1seed, idx := 5 }) := by
    unfold ModelState.step
    rw [show mC1.particles = [pC1] from rfl]
    rw [hsp]
    rfl
  refine ⟨by norm_num, by norm_num, ?_, ⟨?_, by norm_num, by norm_num⟩,
    ?_, by norm_num⟩
  · intro i
    unfold c1seed
    split
    · norm_num
    · split
      · norm_num
      · split
        · norm_num
        · split
          · norm_num
          · norm_num
  · rw [runSim_eq, hini]
    dsimp only
    unfold runSteps
    simp [Except.map, mC1, pC1]
  · rw [runSim_eq, hini]
    dsimp only
    unfold runSteps
    rw [hstep]
    dsimp only
    unfold runSteps
    simp [Except.map, mC1, pC1']

end MetalOxide
